import Mathlib

/-!
# Verification of the fluid-lang compiler front-end

A shallow embedding, in Lean 4, of the scanner (`fluid_lexer`), the
expression parser (`fluid_parser`), the symbol table and the code
generator (`fluid_codegen`) of the fluid language, together with proofs
and refutations of the specified properties.

Conventions of the embedding:
* Rust `char` iteration over the source string becomes a `List Char`
  indexed by the scanner's `position` field.
* A Rust panic (a failed `unwrap`, an `unimplemented!`, an overflow in
  `parse().unwrap()`, an out-of-bounds index) is modelled as an explicit
  `panic` outcome or as `none`/`Option.none` of the surrounding function.
* Rust `u64` values are `Nat` with the `< 2^64` bound enforced exactly
  where the code enforces it (`str::parse::<u64>`).
* `f64` literal payloads are kept as the raw scanned character list: no
  claim depends on float arithmetic, only on the shape of the text.
* `HashMap` becomes an association list whose insert conses in front;
  lookup takes the first hit, which realises the map's replace-on-insert
  semantics.
-/

set_option maxHeartbeats 1000000

abbrev Str := String
abbrev Ch := Char

/-- Keyword enumeration, from `fluid_lexer/src/token.rs`. -/
inductive Keyword where
  | Fn | Extern | Var | Unsafe | Return | As | If | Else | True | False
  | Inline | Null | For | Loop
deriving DecidableEq, Repr

abbrev Kw := Keyword

/-- Raw text of a scanned float literal (see the embedding notes above). -/
abbrev FloatLit := List Ch

/-- Token kinds, from `fluid_lexer/src/token.rs`. -/
inductive TokenType where
  | OpenParen | CloseParen | OpenBrace | CloseBrace | OpenBrac | CloseBrac
  | Semi | Comma | Plus | Minus | Slash | Star | Eq | Bang | Colon | Greater
  | Lesser | Question | Amp | Pipe
  | EqEq | BangEq | TArrow | EArrow | AmpAmp | PipePipe
  | Keyword (k : Kw)
  | Identifier (s : Str)
  | Number (n : Nat)
  | Float (f : FloatLit)
  | String (s : Str)
  | Char (c : Ch)
  | EOF
deriving DecidableEq, Repr

/-- A token's position, from `fluid_lexer/src/token.rs`. -/
structure TokenPosition where
  start : Nat
  stop : Nat
  line : Nat
deriving DecidableEq, Repr

/-- A token, from `fluid_lexer/src/token.rs`. -/
structure Token where
  kind : TokenType
  position : TokenPosition
deriving DecidableEq, Repr

/-- The part of a `fluid_error::Diagnostic` that the scanner decides:
its message and its short code.  The rendering payload (source text,
origin file, byte-range slices) is owned by the external
diagnostic-rendering collaborator and is elided here. -/
structure Diagnostic where
  message : Str
  code : Str
deriving DecidableEq, Repr

/-- Scanner state, from `fluid_lexer/src/lexer.rs` (the `file` and
`code` strings used only for diagnostic rendering are dropped; `code`
is kept as the character list actually scanned). -/
structure Lexer where
  code : List Ch
  position : Nat
  index : Nat
  line : Nat
deriving DecidableEq, Repr

/-- `is_whitespace`, from `fluid_lexer/src/lexer.rs`. -/
def is_whitespace (c : Ch) : Bool :=
  c = '\u0009' || c = '\u000B' || c = '\u000C' || c = '\u000D' || c = ' ' ||
  c = '\u0085' || c = '\u200E' || c = '\u200F' || c = '\u2028' || c = '\u2029'

/-- `is_valid_continuation_of_identifier`, from `fluid_lexer/src/lexer.rs`. -/
def is_valid_continuation_of_identifier (c : Ch) : Bool :=
  c.isAlpha || c.isDigit || c = '_'

/-- `is_valid_start_of_identifier`, from `fluid_lexer/src/lexer.rs`. -/
def is_valid_start_of_identifier (c : Ch) : Bool :=
  c.isAlpha || c = '_'

/-- The `Lexer::advance` METHOD: it moves both `position` and `index`. -/
def Lexer.advance (st : Lexer) : Lexer :=
  { st with position := st.position + 1, index := st.index + 1 }

/-- The `advance!` helper of `fluid_lexer/src/utils.rs` moves ONLY the
`index` field (`$self.index += 1`), never `position`; `current_char` and
`is_eof` read `position`.  This asymmetry is load-bearing for the
punctuation claims. -/
def Lexer.advance_index (st : Lexer) : Lexer :=
  { st with index := st.index + 1 }

/-- `Lexer::current_char` reads `self.code.chars().nth(self.position)`;
the `Option` carries the `unwrap` panic case to the caller. -/
def Lexer.current_char? (st : Lexer) : Option Ch :=
  st.code.get? st.position

/-- Outcome of one `Lexer::get_next_token` call: `Ok(token)`,
`Err(diagnostic)`, or a Rust panic. -/
inductive GetTokRes where
  | ok (t : Token) (st : Lexer)
  | err (d : Diagnostic) (st : Lexer)
  | panic
deriving DecidableEq, Repr

/-- Control position inside `skip_whitespaces_and_comments`: the outer
loop, the line-comment inner loop, or the block-comment inner loop. -/
inductive SkipMode where
  | normal | lineComment | blockComment
deriving DecidableEq, Repr

def SkipMode.rank : SkipMode → Nat
  | .normal => 0
  | .lineComment => 1
  | .blockComment => 1

/-- `Lexer::skip_whitespaces_and_comments`, from `fluid_lexer/src/lexer.rs`.
`none` is the panic of `next_char().unwrap()` when a block comment ends
in a lone `*` at end of input.  A `/` not followed by `/` or `*` is
consumed and skipped (the outer loop just continues), exactly as in the
source. -/
def skip_wc (st : Lexer) (mode : SkipMode) : Option Lexer :=
  match hc : st.code.get? st.position with
  | none => some st
  | some c =>
    match mode with
    | .normal =>
      if is_whitespace c then skip_wc st.advance .normal
      else if c = '\n' then skip_wc { st.advance with line := st.line + 1, index := 0 } .normal
      else if c = '/' then
        match hd : st.advance.code.get? st.advance.position with
        | some '/' => skip_wc st.advance .lineComment
        | some '*' => skip_wc st.advance.advance .blockComment
        | _ => skip_wc st.advance .normal
      else some st
    | .lineComment =>
      if c = '\n' then skip_wc st .normal
      else skip_wc st.advance .lineComment
    | .blockComment =>
      if c = '*' then
        match st.code.get? (st.position + 1) with
        | none => none
        | some d =>
          if d = '/' then skip_wc st.advance.advance .normal
          else skip_wc st.advance .blockComment
      else skip_wc st.advance .blockComment
termination_by (st.code.length - st.position, mode.rank)
decreasing_by
  all_goals
    simp only [Lexer.advance, SkipMode.rank]
  all_goals
    first
    | (apply Prod.Lex.right; omega)
    | (apply Prod.Lex.left
       have hlt := (List.get?_eq_some.mp hc).1
       omega)

/-- The scan loop of `Lexer::collect_str`. -/
def collect_str_loop (st : Lexer) (acc : List Ch) : List Ch × Lexer :=
  match hc : st.code.get? st.position with
  | none => (acc, st)
  | some c =>
    if c = '"' then (acc, st)
    else if c = '\n' then
      collect_str_loop { st with line := st.line + 1, position := st.position + 1, index := st.index + 1 } (acc ++ [c])
    else
      collect_str_loop st.advance (acc ++ [c])
termination_by st.code.length - st.position
decreasing_by
  all_goals
    have hlt := (List.get?_eq_some.mp hc).1
    first
    | (simp only [Lexer.advance]; omega)
    | omega

/-- `Lexer::collect_str`, from `fluid_lexer/src/lexer.rs`. -/
def Lexer.collect_str (st : Lexer) : GetTokRes :=
  let index_start := st.index
  let st1 := st.advance
  match collect_str_loop st1 [] with
  | (s, st2) =>
    match st2.code.get? st2.position with
    | none => .err { message := "unterminated string literal", code := "E0002" } st2
    | some _ =>
      let st3 := st2.advance
      .ok { kind := .String (String.mk s), position := ⟨index_start, st3.index, st3.line⟩ } st3

/-- `Lexer::collect_char`, from `fluid_lexer/src/lexer.rs`.  Note that
the source reads `self.current_char()` (an `unwrap`) BEFORE it tests
`is_eof`, so end of input immediately after the opening quote is a
panic, not a diagnostic. -/
def Lexer.collect_char (st : Lexer) : GetTokRes :=
  let start := st.index
  let st1 := st.advance
  match st1.code.get? st1.position with
  | none => .panic
  | some char_v =>
    let st2 := st1.advance
    match st2.code.get? st2.position with
    | none => .err { message := "unterminated character literal", code := "E0002" } st2
    | some c =>
      if c = '\'' then
        let st3 := st2.advance
        .ok { kind := .Char char_v, position := ⟨start, st3.index, st3.line⟩ } st3
      else
        .err { message := "unterminated character literal", code := "E0002" } st2.advance

/-- The scan loop of `Lexer::collect_id`. -/
def collect_id_loop (st : Lexer) (acc : List Ch) : List Ch × Lexer :=
  match hc : st.code.get? st.position with
  | none => (acc, st)
  | some c =>
    if is_valid_continuation_of_identifier c then
      collect_id_loop st.advance (acc ++ [c])
    else (acc, st)
termination_by st.code.length - st.position
decreasing_by
  all_goals
    simp only [Lexer.advance]
    have hlt := (List.get?_eq_some.mp hc).1
    omega

/-- The keyword table of `Lexer::collect_id`. -/
def classify_id (s : Str) : TokenType :=
  match s with
  | "function" => .Keyword .Fn
  | "extern" => .Keyword .Extern
  | "return" => .Keyword .Return
  | "var" => .Keyword .Var
  | "as" => .Keyword .As
  | "unsafe" => .Keyword .Unsafe
  | "null" => .Keyword .Null
  | "if" => .Keyword .If
  | "else" => .Keyword .Else
  | "true" => .Keyword .True
  | "false" => .Keyword .False
  | "for" => .Keyword .For
  | "loop" => .Keyword .Loop
  | _ => .Identifier s

/-- `Lexer::collect_id`, from `fluid_lexer/src/lexer.rs` (only called
when the scanner is not at end of input). -/
def Lexer.collect_id (st : Lexer) : Option (Token × Lexer) :=
  match st.code.get? st.position with
  | none => none
  | some c =>
    if is_valid_start_of_identifier c then
      match collect_id_loop st.advance [c] with
      | (id, st1) =>
        some (⟨classify_id (String.mk id), ⟨st.index, st1.index, st1.line⟩⟩, st1)
    else none

/-- The scan loop of `Lexer::collect_number`: gather digits; after each
digit, a `.` right behind it switches to float mode and is gathered too. -/
def collect_number_loop (st : Lexer) (acc : List Ch) (isFloat : Bool) :
    List Ch × Bool × Lexer :=
  match hc : st.code.get? st.position with
  | none => (acc, isFloat, st)
  | some c =>
    if c.isDigit then
      match st.advance.code.get? st.advance.position with
      | some d =>
        if d = '.' then collect_number_loop st.advance.advance (acc ++ [c, '.']) true
        else collect_number_loop st.advance (acc ++ [c]) isFloat
      | none => collect_number_loop st.advance (acc ++ [c]) isFloat
    else (acc, isFloat, st)
termination_by st.code.length - st.position
decreasing_by
  all_goals
    simp only [Lexer.advance]
    have hlt := (List.get?_eq_some.mp hc).1
    omega

/-- Decimal value of a digit string, most significant digit first. -/
def natOfDigits (s : List Ch) : Nat :=
  s.foldl (fun a c => 10 * a + (c.toNat - 48)) 0

/-- `str::parse::<u64>` on the collected text: all-digit, non-empty,
and within the unsigned 64-bit range, else the `unwrap` panics. -/
def parse_u64 (s : List Ch) : Option Nat :=
  if s.isEmpty then none
  else if s.all Char.isDigit then
    if natOfDigits s < 2 ^ 64 then some (natOfDigits s) else none
  else none

/-- `str::parse::<f64>` on the collected text, abstractly: the payload
is the raw text; the parse succeeds only when the text has at most one
decimal point (the only failure shape `collect_number` can produce,
e.g. `1.2.3`). -/
def parse_f64 (s : List Ch) : Option FloatLit :=
  if s.count '.' ≤ 1 && s.any Char.isDigit then some s else none

/-- `Lexer::collect_number`, from `fluid_lexer/src/lexer.rs`.
Outer `none` is the panic of `parse().unwrap()`; `some none` means "not
a number here" (Rust `None`); `some (some _)` is a scanned token. -/
def Lexer.collect_number (st : Lexer) : Option (Option (Token × Lexer)) :=
  let start := st.index
  match collect_number_loop st [] false with
  | (num, isFloat, st1) =>
    if num.isEmpty then some none
    else if isFloat then
      match parse_f64 num with
      | none => none
      | some f => some (some (⟨.Float f, ⟨start, st1.index, st1.line⟩⟩, st1))
    else
      match parse_u64 num with
      | none => none
      | some n => some (some (⟨.Number n, ⟨start, st1.index, st1.line⟩⟩, st1))

/-- One single-character arm of the punctuation dispatch:
`advance!(self, $token)` makes the token at `(index, index + 1)` and
then bumps only `index`. -/
def Lexer.single_tok (st : Lexer) (k : TokenType) : GetTokRes :=
  .ok ⟨k, ⟨st.index, st.index + 1, st.line⟩⟩ st.advance_index

/-- One lookahead arm of the punctuation dispatch:
`advance!(self, [$char => $ret],* , $default)` bumps only `index`, then
tests each `$char` against `current_char()` — whose `position` was NOT
moved — and on a hit bumps `index` again. -/
def Lexer.pair_tok (st : Lexer) (pairs : List (Ch × TokenType)) (dflt : TokenType) : GetTokRes :=
  let st1 := st.advance_index
  match pairs.find? (fun p => decide (st1.code.get? st1.position = some p.1)) with
  | some p => .ok ⟨p.2, ⟨st1.index, st1.index + 2, st1.line⟩⟩ st1.advance_index
  | none => .ok ⟨dflt, ⟨st1.index, st1.index + 1, st1.line⟩⟩ st1

/-- The punctuation `match` of `Lexer::get_next_token` (lines 123-147 of
`fluid_lexer/src/lexer.rs`), for a current character that started
neither an identifier nor a number. -/
def Lexer.punct_dispatch (st : Lexer) (c : Ch) : GetTokRes :=
  if c = '(' then st.single_tok .OpenParen
  else if c = ')' then st.single_tok .CloseParen
  else if c = '{' then st.single_tok .OpenBrace
  else if c = '}' then st.single_tok .CloseBrace
  else if c = '[' then st.single_tok .OpenBrac
  else if c = ']' then st.single_tok .CloseBrac
  else if c = ';' then st.single_tok .Semi
  else if c = ',' then st.single_tok .Comma
  else if c = '+' then st.single_tok .Plus
  else if c = '/' then st.single_tok .Slash
  else if c = '*' then st.single_tok .Star
  else if c = ':' then st.single_tok .Colon
  else if c = '>' then st.single_tok .Greater
  else if c = '<' then st.single_tok .Lesser
  else if c = '?' then st.single_tok .Question
  else if c = '-' then st.pair_tok [('>', .TArrow)] .Minus
  else if c = '!' then st.pair_tok [('=', .BangEq)] .Bang
  else if c = '&' then st.pair_tok [('&', .AmpAmp)] .Amp
  else if c = '|' then st.pair_tok [('|', .PipePipe)] .Pipe
  else if c = '=' then st.pair_tok [('=', .EqEq), ('>', .EArrow)] .Eq
  else if c = '"' then st.collect_str
  else if c = '\'' then st.collect_char
  else .err { message := "illegal character encountered", code := "E0001" } st.advance

/-- `Lexer::get_next_token`, from `fluid_lexer/src/lexer.rs`. -/
def Lexer.get_next_token (st : Lexer) : GetTokRes :=
  match skip_wc st .normal with
  | none => .panic
  | some st0 =>
    match st0.code.get? st0.position with
    | none => .ok ⟨.EOF, ⟨st0.index, st0.index, st0.line⟩⟩ st0
    | some c =>
      match st0.collect_id with
      | some (t, st1) => .ok t st1
      | none =>
        match st0.collect_number with
        | none => .panic
        | some (some (t, st1)) => .ok t st1
        | some none => st0.punct_dispatch c

/-- Outcome of `Lexer::run`: the `Result` (`Ok` tokens or `Err`
diagnostics), a panic, or "the given fuel was not enough" — the loop of
`run` has no termination guarantee of its own, so the embedding gives
it explicit fuel. -/
inductive RunRes where
  | okOut (tokens : List Token)
  | errOut (errors : List Diagnostic)
  | panic
  | fuelOut
deriving DecidableEq, Repr

/-- The loop of `Lexer::run`: collect tokens until the EOF token; on a
diagnostic, record it and advance one character; at the end, `Ok` the
tokens when no diagnostic was recorded, else `Err` them all. -/
def Lexer.run_aux : Nat → Lexer → List Token → List Diagnostic → RunRes
  | 0, _, _, _ => .fuelOut
  | fuel + 1, st, tokens, errors =>
    match st.get_next_token with
    | .panic => .panic
    | .ok t st1 =>
      if t.kind = .EOF then
        if errors.isEmpty then .okOut (tokens ++ [t])
        else .errOut errors
      else Lexer.run_aux fuel st1 (tokens ++ [t]) errors
    | .err d st1 => Lexer.run_aux fuel st1.advance tokens (errors ++ [d])

/-- `Lexer::new`: start of file, line 1. -/
def Lexer.new (code : Str) : Lexer :=
  { code := code.toList, position := 0, index := 0, line := 1 }

/-- `Lexer::run` with explicit fuel. -/
def Lexer.run (fuel : Nat) (st : Lexer) : RunRes :=
  Lexer.run_aux fuel st [] []

/-- `Type`, from `fluid_parser/src/ast.rs` (Lean reserves `Type`, so
the embedding names it `Ty`; constructor names are kept). -/
inductive Ty where
  | Void | Number | Float | String | Bool
deriving DecidableEq, Repr

/-- `Type::default()` is `void`. -/
def Ty.default : Ty := .Void

/-- `Literal`, from `fluid_parser/src/ast.rs`. -/
inductive Literal where
  | Bool (b : Bool)
  | Number (n : Nat)
  | Float (f : FloatLit)
  | String (s : Str)
  | Char (c : Ch)
  | Null
deriving DecidableEq, Repr

/-- `UnaryOp`, from `fluid_parser/src/ast.rs`. -/
inductive UnaryOp where
  | Neg | Not
deriving DecidableEq, Repr

/-- `BinaryOp`, from `fluid_parser/src/ast.rs`. -/
inductive BinaryOp where
  | Add | Subtract | Mul | Div | Lesser | Greater | EqEq | And | Or
deriving DecidableEq, Repr

/-- `Expression`, from `fluid_parser/src/ast.rs`. -/
inductive Expression where
  | VarRef (name : Str)
  | VarAssign (name : Str) (value : Expression)
  | FunctionCall (name : Str) (args : List Expression)
  | BinaryOp (lhs : Expression) (op : BinaryOp) (rhs : Expression)
  | Literal (lit : Literal)
  | Unary (op : UnaryOp) (rhs : Expression)
  | Paren (e : Expression)
deriving Repr

/-- `Arg`, from `fluid_parser/src/ast.rs`. -/
structure Arg where
  name : Str
  typee : Ty
deriving DecidableEq, Repr

/-- `Prototype`, from `fluid_parser/src/ast.rs`. -/
structure Prototype where
  name : Str
  args : List Arg
  return_type : Ty
deriving DecidableEq, Repr

mutual
/-- `Statement`, from `fluid_parser/src/ast.rs`. -/
inductive Statement where
  | Expression (e : Expression)
  | Return (e : Expression)
  | If (cond : Expression) (body : Statement) (elif : Option Statement)
  | For
  | Block (body : List Statement)
  | Declaration (d : Declaration)

/-- `Declaration`, from `fluid_parser/src/ast.rs`. -/
inductive Declaration where
  | Function (f : Func)
  | Extern (protos : List Prototype)
  | VarDef (name : Str) (typee : Ty) (value : Expression)

/-- `Function`, from `fluid_parser/src/ast.rs` (the Lean name `Func`
avoids the special treatment of the `Function` namespace). -/
inductive Func where
  | mk (prototype : Prototype) (body : Statement)
end

def Func.prototype (f : Func) : Prototype :=
  match f with
  | .mk p _ => p

def Func.body (f : Func) : Statement :=
  match f with
  | .mk _ b => b

/-- Parser state, from `fluid_parser/src/parser.rs`. -/
structure Parser where
  tokens : List Token
  index : Nat
deriving DecidableEq, Repr

/-- `Parser::peek` reads `self.tokens[self.index].kind`; `none` carries
the out-of-bounds panic to the caller. -/
def Parser.peek? (p : Parser) : Option TokenType :=
  (p.tokens.get? p.index).map (·.kind)

/-- The parser's `advance!` helper: `self.index += 1`. -/
def Parser.advance (p : Parser) : Parser :=
  { p with index := p.index + 1 }

/-- `Parser::expect`: advance over the expected token, else panic. -/
def Parser.expect (p : Parser) (t : TokenType) : Option Parser :=
  match p.peek? with
  | none => none
  | some k => if k = t then some p.advance else none

mutual

/-- `Parser::parse_expression`: delegate to assignment, the loosest
level.  All parse functions burn one unit of fuel per call; `none`
covers both a Rust panic and fuel exhaustion (never hit in the concrete
runs below). -/
def parse_expression : Nat → Parser → Option (Expression × Parser)
  | 0, _ => none
  | f + 1, p => parse_assignment f p

/-- `Parser::parse_assignment`: parse an or-level operand; a following
`=` parses a full expression on the right (right-associative) and
requires the left side to be a bare variable reference. -/
def parse_assignment : Nat → Parser → Option (Expression × Parser)
  | 0, _ => none
  | f + 1, p =>
    match parse_or f p with
    | none => none
    | some (node, p1) =>
      match p1.peek? with
      | none => none
      | some .Eq =>
        match parse_expression f p1.advance with
        | none => none
        | some (value, p3) =>
          match node with
          | .VarRef v => some (.VarAssign v value, p3)
          | _ => none
      | some _ => some (node, p1)

/-- `Parser::parse_or`: one and-level operand, then at most one `||`
fold. -/
def parse_or : Nat → Parser → Option (Expression × Parser)
  | 0, _ => none
  | f + 1, p =>
    match parse_and f p with
    | none => none
    | some (node, p1) =>
      match p1.peek? with
      | none => none
      | some .PipePipe =>
        match parse_and f p1.advance with
        | none => none
        | some (rhs, p2) => some (.BinaryOp node .Or rhs, p2)
      | some _ => some (node, p1)

/-- `Parser::parse_and`: one equality-level operand, then at most one
`&&` fold. -/
def parse_and : Nat → Parser → Option (Expression × Parser)
  | 0, _ => none
  | f + 1, p =>
    match parse_equality f p with
    | none => none
    | some (node, p1) =>
      match p1.peek? with
      | none => none
      | some .AmpAmp =>
        match parse_equality f p1.advance with
        | none => none
        | some (rhs, p2) => some (.BinaryOp node .And rhs, p2)
      | some _ => some (node, p1)

/-- `Parser::parse_equality`: one comparison-level operand, then at
most one `==` fold. -/
def parse_equality : Nat → Parser → Option (Expression × Parser)
  | 0, _ => none
  | f + 1, p =>
    match parse_comparison f p with
    | none => none
    | some (node, p1) =>
      match p1.peek? with
      | none => none
      | some .EqEq =>
        match parse_comparison f p1.advance with
        | none => none
        | some (rhs, p2) => some (.BinaryOp node .EqEq rhs, p2)
      | some _ => some (node, p1)

/-- `Parser::parse_comparison`: one term-level operand, then at most
one `>` or `<` fold. -/
def parse_comparison : Nat → Parser → Option (Expression × Parser)
  | 0, _ => none
  | f + 1, p =>
    match parse_term f p with
    | none => none
    | some (node, p1) =>
      match p1.peek? with
      | none => none
      | some .Greater =>
        match parse_term f p1.advance with
        | none => none
        | some (rhs, p2) => some (.BinaryOp node .Greater rhs, p2)
      | some .Lesser =>
        match parse_term f p1.advance with
        | none => none
        | some (rhs, p2) => some (.BinaryOp node .Lesser rhs, p2)
      | some _ => some (node, p1)

/-- `Parser::parse_term`: one factor-level operand, then at most one
`+` or `-` fold — the level does NOT loop. -/
def parse_term : Nat → Parser → Option (Expression × Parser)
  | 0, _ => none
  | f + 1, p =>
    match parse_factor f p with
    | none => none
    | some (node, p1) =>
      match p1.peek? with
      | none => none
      | some .Plus =>
        match parse_factor f p1.advance with
        | none => none
        | some (rhs, p2) => some (.BinaryOp node .Add rhs, p2)
      | some .Minus =>
        match parse_factor f p1.advance with
        | none => none
        | some (rhs, p2) => some (.BinaryOp node .Subtract rhs, p2)
      | some _ => some (node, p1)

/-- `Parser::parse_factor`: one unary-level operand, then at most one
`*` or `/` fold. -/
def parse_factor : Nat → Parser → Option (Expression × Parser)
  | 0, _ => none
  | f + 1, p =>
    match parse_unary f p with
    | none => none
    | some (node, p1) =>
      match p1.peek? with
      | none => none
      | some .Star =>
        match parse_unary f p1.advance with
        | none => none
        | some (rhs, p2) => some (.BinaryOp node .Mul rhs, p2)
      | some .Slash =>
        match parse_unary f p1.advance with
        | none => none
        | some (rhs, p2) => some (.BinaryOp node .Div rhs, p2)
      | some _ => some (node, p1)

/-- `Parser::parse_unary`: prefixed `-`/`!` recurse into unary, else a
primary expression. -/
def parse_unary : Nat → Parser → Option (Expression × Parser)
  | 0, _ => none
  | f + 1, p =>
    match p.peek? with
    | none => none
    | some .Minus =>
      match parse_unary f p.advance with
      | none => none
      | some (rhs, p1) => some (.Unary .Neg rhs, p1)
    | some .Bang =>
      match parse_unary f p.advance with
      | none => none
      | some (rhs, p1) => some (.Unary .Not rhs, p1)
    | some _ => parse_primary f p

/-- `Parser::parse_primary`: literals, identifiers (reference or call)
and parenthesised sub-expressions; anything else panics. -/
def parse_primary : Nat → Parser → Option (Expression × Parser)
  | 0, _ => none
  | f + 1, p =>
    match p.peek? with
    | none => none
    | some (.Keyword .True) => some (.Literal (.Bool true), p.advance)
    | some (.Keyword .False) => some (.Literal (.Bool false), p.advance)
    | some (.Keyword .Null) => some (.Literal .Null, p.advance)
    | some (.Number n) => some (.Literal (.Number n), p.advance)
    | some (.Float fl) => some (.Literal (.Float fl), p.advance)
    | some (.String s) => some (.Literal (.String s), p.advance)
    | some (.Char c) => some (.Literal (.Char c), p.advance)
    | some (.Identifier _) => parse_id f p
    | some .OpenParen =>
      match parse_expression f p.advance with
      | none => none
      | some (prime, p1) => some (.Paren prime, p1.advance)
    | some _ => none

/-- `Parser::parse_id`: an identifier directly followed by `(` is a
call (one token of lookahead), else a plain variable reference. -/
def parse_id : Nat → Parser → Option (Expression × Parser)
  | 0, _ => none
  | f + 1, p =>
    match p.peek? with
    | some (.Identifier id) =>
      let p1 := p.advance
      match p1.peek? with
      | none => none
      | some .OpenParen =>
        match parse_call_args f p1.advance [] with
        | none => none
        | some (params, p2) => some (.FunctionCall id params, p2)
      | some _ => some (.VarRef id, p1)
    | _ => none

/-- The argument loop of `Parser::parse_id`, ending at the closing
parenthesis; a missing comma between arguments panics. -/
def parse_call_args : Nat → Parser → List Expression → Option (List Expression × Parser)
  | 0, _, _ => none
  | f + 1, p, acc =>
    match p.peek? with
    | none => none
    | some .CloseParen => some (acc, p.advance)
    | some _ =>
      match parse_expression f p with
      | none => none
      | some (e, p1) =>
        match p1.peek? with
        | none => none
        | some .CloseParen => parse_call_args f p1 (acc ++ [e])
        | some _ =>
          match p1.expect .Comma with
          | none => none
          | some p2 => parse_call_args f p2 (acc ++ [e])

end

/-- `Parser::parse_expression_statement`: an expression followed by a
mandatory `;`. -/
def parse_expression_statement (f : Nat) (p : Parser) : Option (Expression × Parser) :=
  match parse_expression f p with
  | none => none
  | some (e, p1) =>
    match p1.expect .Semi with
    | none => none
    | some p2 => some (e, p2)

/-- Build a token with a dummy position (the parser never reads
positions). -/
def tok (k : TokenType) : Token :=
  ⟨k, ⟨0, 0, 1⟩⟩

/-- First-match lookup in an association list; together with
front-consing insert this realises `HashMap`'s replace-on-insert
("last write wins") semantics. -/
def alist_get {α : Type} (l : List (Str × α)) (k : Str) : Option α :=
  (l.find? (fun p => decide (p.1 = k))).map (·.2)

/-- Apply `f` to the element at position `i`; out of bounds is the
identity (every use below is in bounds). -/
def updateAt {α : Type} : List α → Nat → (α → α) → List α
  | [], _, _ => []
  | a :: t, 0, f => f a :: t
  | a :: t, n + 1, f => a :: updateAt t n f

/-- `FluidVariableRef`, from `fluid_codegen/src/symbol.rs`; the
`LLVMValueRef` of the alloca becomes an opaque `Nat` handle. -/
structure FluidVariableRef where
  initialized : Bool
  kind : Ty
  alloca : Nat
deriving DecidableEq, Repr

/-- `FluidFunctionRef`, from `fluid_codegen/src/symbol.rs`. -/
structure FluidFunctionRef where
  args : List Ty
  return_type : Ty
  value : Nat
deriving DecidableEq, Repr

/-- `Scope`, from `fluid_codegen/src/symbol.rs`: optional parent id and
the two name maps. -/
structure Scope where
  parent : Option Nat
  functions : List (Str × FluidFunctionRef)
  -- the source field is `variables`, a reserved word in Lean
  vars : List (Str × FluidVariableRef)
deriving DecidableEq, Repr

/-- `Scope::new`. -/
def Scope.new (parent : Option Nat) : Scope :=
  { parent := parent, functions := [], vars := [] }

/-- `SymbolTable`, from `fluid_codegen/src/symbol.rs`: a growing vector
of scopes and the id of the current one. -/
structure SymbolTable where
  scopes : List Scope
  current : Nat
deriving DecidableEq, Repr

/-- `SymbolTable::new`: one permanent global scope, current id 0. -/
def SymbolTable.new : SymbolTable :=
  { scopes := [Scope.new none], current := 0 }

/-- `SymbolTable::push_scope`: append a child of the current scope and
INCREMENT `current` — the new scope's vector slot is `scopes.len() - 1`,
which coincides with `current` only while pushes were never undone. -/
def SymbolTable.push_scope (st : SymbolTable) : SymbolTable :=
  { scopes := st.scopes ++ [Scope.new (some st.current)], current := st.current + 1 }

/-- `SymbolTable::pop_scope`: decrement `current` (the popped scope's
slot stays in the vector).  Rust would panic on underflow of the
`usize`; truncated subtraction stands in for it and every use below
keeps `current` positive at each pop. -/
def SymbolTable.pop_scope (st : SymbolTable) : SymbolTable :=
  { st with current := st.current - 1 }

/-- `SymbolTable::current_scope`; `none` is the vector-indexing panic. -/
def SymbolTable.current_scope? (st : SymbolTable) : Option Scope :=
  st.scopes.get? st.current

/-- `SymbolTable::current_scope_parent`: the current scope's parent;
`none` is the `parent.unwrap()` panic (global scope) or an indexing
panic. -/
def SymbolTable.current_scope_parent? (st : SymbolTable) : Option Scope :=
  match st.current_scope? with
  | none => none
  | some sc =>
    match sc.parent with
    | none => none
    | some pid => st.scopes.get? pid

/-- `SymbolTable::insert_function`: bind in the current scope only. -/
def SymbolTable.insert_function (st : SymbolTable) (name : Str) (f : FluidFunctionRef) : SymbolTable :=
  { st with scopes := updateAt st.scopes st.current (fun sc => { sc with functions := (name, f) :: sc.functions }) }

/-- `SymbolTable::insert_variable`: bind in the current scope only. -/
def SymbolTable.insert_variable (st : SymbolTable) (name : Str) (v : FluidVariableRef) : SymbolTable :=
  { st with scopes := updateAt st.scopes st.current (fun sc => { sc with vars := (name, v) :: sc.vars }) }

/-- `SymbolTable::get_variable`: consult the current scope only. -/
def SymbolTable.get_variable (st : SymbolTable) (name : Str) : Option FluidVariableRef :=
  match st.current_scope? with
  | none => none
  | some sc => alist_get sc.vars name

/-- `SymbolTable::get_function`: consult the current scope only (the
one-level parent fallback lives at the call site, see below). -/
def SymbolTable.get_function (st : SymbolTable) (name : Str) : Option FluidFunctionRef :=
  match st.current_scope? with
  | none => none
  | some sc => alist_get sc.functions name

/-- The callee lookup of `CodeGen::gen_function_call`
(`fluid_codegen/src/expression.rs` lines 95-99): the current scope via
`get_function`, and on a miss exactly the current scope's parent;
`none` is the final `unwrap` panic (or the `current_scope_parent`
panic at the global scope). -/
def lookup_function_for_call (st : SymbolTable) (name : Str) : Option FluidFunctionRef :=
  match st.get_function name with
  | some f => some f
  | none =>
    match st.current_scope_parent? with
    | none => none
    | some sc => alist_get sc.functions name

/-- The scope-walking contract as the specification words it
(§4.3): "get_function looks up the current scope and, on miss, falls
back exactly one level to the current scope's parent (not a full walk
to the root)".  Written from the spec, to be compared with
`lookup_function_for_call`, which is written from the code. -/
def spec_function_lookup (st : SymbolTable) (name : Str) : Option FluidFunctionRef :=
  match st.scopes.get? st.current with
  | none => none
  | some sc =>
    match alist_get sc.functions name with
    | some f => some f
    | none =>
      match sc.parent with
      | none => none
      | some pid =>
        match st.scopes.get? pid with
        | none => none
        | some psc => alist_get psc.functions name

/-- `mangle_function_name`, from `fluid_mangle/src/lib.rs`: the
identity on the name. -/
def mangle_function_name (name : Str) (_params : List Ty) : Str :=
  name

/-- One push or pop of the scope stack, for stating the scope-lifecycle
claims. -/
inductive ScopeOp where
  | push | pop
deriving DecidableEq, Repr

/-- Run a sequence of push/pop operations on a symbol table. -/
def exec_ops (st : SymbolTable) : List ScopeOp → SymbolTable
  | [] => st
  | .push :: rest => exec_ops st.push_scope rest
  | .pop :: rest => exec_ops st.pop_scope rest

/-- `good_ops d ops`: starting from nesting depth `d`, pops never
outnumber pushes in any front segment of `ops` (the claim's side
condition; it rules out the `usize` underflow in `pop_scope`). -/
def good_ops : Nat → List ScopeOp → Bool
  | _, [] => true
  | d, .push :: rest => good_ops (d + 1) rest
  | d, .pop :: rest => d != 0 && good_ops (d - 1) rest

/-- The backend types `CodeGen::gen_type` can produce.  `Float` lowers
to `LLVMFloatTypeInContext` — the 32-bit type, narrower than the stored
64-bit literal (spec §9c). -/
inductive LLVMTy where
  | voidT | i64 | f32 | ptrI8 | i1
deriving DecidableEq, Repr

/-- `CodeGen::gen_type`, from `fluid_codegen/src/codegen.rs`. -/
def gen_type : Ty → LLVMTy
  | .Void => .voidT
  | .Number => .i64
  | .Float => .f32
  | .String => .ptrI8
  | .Bool => .i1

/-- The builder instructions the code generator emits; SSA value
handles are opaque `Nat`s. -/
inductive Instr where
  | alloca (ty : LLVMTy) (name : Str) (result : Nat)
  | store (v : Nat) (slot : Nat)
  | load (slot : Nat) (name : Str) (result : Nat)
  | add (a b : Nat) (result : Nat)
  | fadd (a b : Nat) (result : Nat)
  | sub (a b : Nat) (result : Nat)
  | fsub (a b : Nat) (result : Nat)
  | mul (a b : Nat) (result : Nat)
  | fmul (a b : Nat) (result : Nat)
  | neg (a : Nat) (result : Nat)
  | call (fn : Nat) (args : List Nat) (result : Nat)
  | ret (v : Nat)
  | retVoid
deriving DecidableEq, Repr

/-- Is the instruction a block terminator (a return)? -/
def Instr.isTerm : Instr → Bool
  | .ret _ => true
  | .retVoid => true
  | _ => false

/-- One backend function: its (mangled) name, its `LLVMValueRef`
handle, and the instructions of its entry block in emission order. -/
structure FnIR where
  name : Str
  value : Nat
  instrs : List Instr
deriving DecidableEq, Repr

/-- `FluidValueRef`, from `fluid_codegen/src/utils.rs`: the
(source type, backend value) pair produced by every lowered
expression. -/
structure FluidValueRef where
  kind : Ty
  value : Nat
deriving DecidableEq, Repr

/-- The `CodeGen` session state the claims touch: the symbol table, the
module's functions, the builder's position (the function whose entry
block receives emitted instructions), and a fresh-handle counter.  The
LLVM context/execution-engine/pass-manager handles carry no claim-level
information and are elided. -/
structure CGState where
  symbol_table : SymbolTable
  functions : List FnIR
  builder : Option Nat
  next_val : Nat
deriving DecidableEq, Repr

/-- A fresh `CodeGen` session: empty module, global scope, builder not
yet positioned. -/
def CGState.init : CGState :=
  { symbol_table := SymbolTable.new, functions := [], builder := none, next_val := 0 }

/-- Allocate a fresh backend value handle. -/
def fresh (st : CGState) : Nat × CGState :=
  (st.next_val, { st with next_val := st.next_val + 1 })

/-- Append an instruction at the builder's position; `none` is the
undefined behaviour of building without a positioned builder. -/
def emit (st : CGState) (i : Instr) : Option CGState :=
  match st.builder with
  | none => none
  | some idx =>
    if idx < st.functions.length then
      some { st with functions := updateAt st.functions idx (fun f => { f with instrs := f.instrs ++ [i] }) }
    else none

/-- `CodeGen::gen_prototype`, from `fluid_codegen/src/declaration.rs`:
declare the function (external linkage, named parameters) with no body.
The function-level pass pipeline it runs is a no-op on a bodyless
declaration (spec §9b) and needs no model. -/
def gen_prototype (st : CGState) (proto : Prototype) : Nat × CGState :=
  let (fv, st1) := fresh st
  (fv, { st1 with functions := st1.functions ++ [⟨proto.name, fv, []⟩] })

mutual

/-- `CodeGen::gen_expression`, from `fluid_codegen/src/expression.rs`.
`none` is a panic: an `unimplemented!` arm (`VarAssign`, `Paren`,
float/string/char/null literals, `Div`/comparison/logical operators,
unary `Not`), a failed symbol lookup, or a failed `initialized`
assertion. -/
def gen_expression (st : CGState) : Expression → Option (FluidValueRef × CGState)
  | .Literal (.Number _) =>
    match fresh st with
    | (v, st1) => some (⟨.Number, v⟩, st1)
  | .Literal (.Bool _) =>
    match fresh st with
    | (v, st1) => some (⟨.Bool, v⟩, st1)
  | .Literal _ => none
  | .VarRef name =>
    match st.symbol_table.get_variable name with
    | none => none
    | some var =>
      if var.initialized then
        match fresh st with
        | (r, st1) =>
          match emit st1 (.load var.alloca name r) with
          | none => none
          | some st2 => some (⟨var.kind, r⟩, st2)
      else none
  | .FunctionCall name args =>
    match gen_args st args [] with
    | none => none
    | some (cargs, st1) =>
      let func_name := mangle_function_name name (cargs.map (·.kind))
      match lookup_function_for_call st1.symbol_table func_name with
      | none => none
      | some func =>
        match fresh st1 with
        | (r, st2) =>
          match emit st2 (.call func.value (cargs.map (·.value)) r) with
          | none => none
          | some st3 => some (⟨func.return_type, r⟩, st3)
  | .BinaryOp lhs op rhs =>
    match gen_expression st lhs with
    | none => none
    | some (l, st1) =>
      match gen_expression st1 rhs with
      | none => none
      | some (rv, st2) =>
        match op with
        | .Add =>
          match fresh st2 with
          | (r, st3) =>
            match emit st3 (if l.kind = .Number then .add l.value rv.value r else .fadd l.value rv.value r) with
            | none => none
            | some st4 => some (⟨l.kind, r⟩, st4)
        | .Subtract =>
          match fresh st2 with
          | (r, st3) =>
            match emit st3 (if l.kind = .Number then .sub l.value rv.value r else .fsub l.value rv.value r) with
            | none => none
            | some st4 => some (⟨l.kind, r⟩, st4)
        | .Mul =>
          match fresh st2 with
          | (r, st3) =>
            match emit st3 (if l.kind = .Number then .mul l.value rv.value r else .fmul l.value rv.value r) with
            | none => none
            | some st4 => some (⟨l.kind, r⟩, st4)
        | _ => none
  | .Unary .Neg rhs =>
    match gen_expression st rhs with
    | none => none
    | some (rv, st1) =>
      match fresh st1 with
      | (r, st2) =>
        match emit st2 (.neg rv.value r) with
        | none => none
        | some st3 => some (⟨rv.kind, r⟩, st3)
  | .Unary .Not _ => none
  | .VarAssign _ _ => none
  | .Paren _ => none

/-- The argument loop of `CodeGen::gen_function_call`. -/
def gen_args (st : CGState) : List Expression → List FluidValueRef → Option (List FluidValueRef × CGState)
  | [], acc => some (acc, st)
  | e :: rest, acc =>
    match gen_expression st e with
    | none => none
    | some (v, st1) => gen_args st1 rest (acc ++ [v])

end

/-- `CodeGen::gen_var_def`, from `fluid_codegen/src/statement.rs`:
lower the initialiser, allocate a stack slot, store, record the
variable in the current scope. -/
def gen_var_def (st : CGState) (name : Str) (kind : Ty) (value : Expression) : Option CGState :=
  let llvm_type := gen_type kind
  match gen_expression st value with
  | none => none
  | some (v, st1) =>
    match fresh st1 with
    | (slot, st2) =>
      match emit st2 (.alloca llvm_type name slot) with
      | none => none
      | some st3 =>
        match emit st3 (.store v.value slot) with
        | none => none
        | some st4 =>
          some { st4 with symbol_table := st4.symbol_table.insert_variable name ⟨true, kind, slot⟩ }

/-- The parameter loop of `CodeGen::gen_function_def`: per parameter,
an alloca, a store of the incoming value, and a variable descriptor in
the current (body) scope. -/
def gen_params (st : CGState) : List Arg → Option CGState
  | [] => some st
  | arg :: rest =>
    match fresh st with
    | (param, st1) =>
      match fresh st1 with
      | (slot, st2) =>
        match emit st2 (.alloca (gen_type arg.typee) arg.name slot) with
        | none => none
        | some st3 =>
          match emit st3 (.store param slot) with
          | none => none
          | some st4 =>
            gen_params { st4 with symbol_table := st4.symbol_table.insert_variable arg.name ⟨true, arg.typee, slot⟩ } rest

/-- `CodeGen::gen_extern_def` over an extern block's prototypes:
declaration only, no body, no builder movement. -/
def gen_externs (st : CGState) : List Prototype → CGState
  | [] => st
  | p :: rest => gen_externs (gen_prototype st p).2 rest

/-- The first half of `CodeGen::gen_function_def`
(`fluid_codegen/src/declaration.rs` lines 36-63), up to and including
the `insert_function` call: mangle the name, declare the prototype,
PUSH the body scope, position the builder on the new function's entry
block, lower the parameter allocas, then insert the function
descriptor — into the scope that is current AFTER the push.  The state
it returns is exactly the state in which the body is lowered. -/
def gen_function_def_pre (st : CGState) (f : Func) : Option CGState :=
  let name' := mangle_function_name f.prototype.name (f.prototype.args.map (·.typee))
  match gen_prototype st { f.prototype with name := name' } with
  | (fv, st1) =>
    let st2 := { st1 with
      symbol_table := st1.symbol_table.push_scope,
      builder := some st.functions.length }
    match gen_params st2 f.prototype.args with
    | none => none
    | some st3 =>
      some { st3 with
        symbol_table := st3.symbol_table.insert_function name'
          ⟨f.prototype.args.map (·.typee), f.prototype.return_type, fv⟩ }

/-- Modelled from the spec: the backend verifier
(`LLVMVerifyFunction`, an external collaborator per §6) as the
structural check the spec relies on — a generated function passes only
when its entry block ends in a return terminator (§4.4, §8: a non-Void
function whose body emits no trailing return fails verification). -/
def verify_function : Option FnIR → Bool
  | none => false
  | some fn =>
    match fn.instrs.getLast? with
    | some i => i.isTerm
    | none => false

mutual

/-- `CodeGen::gen_statement`, from `fluid_codegen/src/statement.rs`;
`If` and `For` are `unimplemented!`. -/
def gen_statement (st : CGState) : Statement → Option CGState
  | .Expression e =>
    match gen_expression st e with
    | none => none
    | some (_, st1) => some st1
  | .Return e =>
    match gen_expression st e with
    | none => none
    | some (v, st1) => emit st1 (.ret v.value)
  | .Block block =>
    match gen_stmts { st with symbol_table := st.symbol_table.push_scope } block with
    | none => none
    | some st1 => some { st1 with symbol_table := st1.symbol_table.pop_scope }
  | .Declaration d => gen_decl st d
  | .If _ _ _ => none
  | .For => none

/-- Lower a statement list in order, stopping at the first panic. -/
def gen_stmts (st : CGState) : List Statement → Option CGState
  | [] => some st
  | s :: rest =>
    match gen_statement st s with
    | none => none
    | some st1 => gen_stmts st1 rest

/-- `CodeGen::gen_decl`, from `fluid_codegen/src/statement.rs`. -/
def gen_decl (st : CGState) : Declaration → Option CGState
  | .Function f => gen_function_def st f
  | .VarDef name kind value => gen_var_def st name kind value
  | .Extern protos => some (gen_externs st protos)

/-- `CodeGen::gen_function_body`: a body must be a block; its
statements are lowered in order WITHOUT pushing another scope (the
scope was pushed by `gen_function_def`). -/
def gen_function_body (st : CGState) : Statement → Option CGState
  | .Block block => gen_stmts st block
  | _ => none

/-- `CodeGen::gen_function_def` up to but excluding the verifier call:
the `pre` half, the body, the scope pop, and the implicit `ret void`
appended exactly when the declared return type is `Void`. -/
def gen_function_def_core (st : CGState) : Func → Option CGState
  | .mk proto body =>
    match gen_function_def_pre st (.mk proto body) with
    | none => none
    | some st4 =>
      match gen_function_body st4 body with
      | none => none
      | some st5 =>
        let st6 := { st5 with symbol_table := st5.symbol_table.pop_scope }
        if proto.return_type = .Void then emit st6 .retVoid else some st6

/-- `CodeGen::gen_function_def`, from `fluid_codegen/src/declaration.rs`:
the core, then `LLVMVerifyFunction` on the generated function; on
failure the function is deleted and the process panics (`none`). -/
def gen_function_def (st : CGState) : Func → Option CGState
  | .mk proto body =>
    match gen_function_def_core st (.mk proto body) with
    | none => none
    | some st7 =>
      if verify_function (st7.functions.get? st.functions.length) then some st7
      else none

end

mutual

/-- Does the statement contain no function definition?  (Used to state
the implicit-return claim: a nested `gen_function_def` would reposition
the builder onto the nested function and never restore it.) -/
def stmt_no_fn_decl : Statement → Bool
  | .Expression _ => true
  | .Return _ => true
  | .If _ _ _ => true
  | .For => true
  | .Block b => stmts_no_fn_decl b
  | .Declaration d => decl_no_fn_decl d

def decl_no_fn_decl : Declaration → Bool
  | .Function _ => false
  | .Extern _ => true
  | .VarDef _ _ _ => true

def stmts_no_fn_decl : List Statement → Bool
  | [] => true
  | s :: rest => stmt_no_fn_decl s && stmts_no_fn_decl rest

end

mutual

/-- Does the statement contain no return statement (at this function's
own level)? -/
def stmt_no_return : Statement → Bool
  | .Expression _ => true
  | .Return _ => false
  | .If _ _ _ => true
  | .For => true
  | .Block b => stmts_no_return b
  | .Declaration _ => true

def stmts_no_return : List Statement → Bool
  | [] => true
  | s :: rest => stmt_no_return s && stmts_no_return rest

end

/-- State extension under lowering: the builder position is unchanged
and every already-present function keeps its name and value, its
instruction list only growing at the end; when `retAllowed` is `false`
the appended tail contains no return terminator. -/
def ext_tail (retAllowed : Bool) (st st' : CGState) : Prop :=
  st'.builder = st.builder ∧
  ∀ i f, st.functions.get? i = some f →
    ∃ t, st'.functions.get? i = some { f with instrs := f.instrs ++ t } ∧
      (retAllowed = false → t.all (fun ins => !ins.isTerm) = true)

/-! ## Helper lemmas -/

/-- Scope-lifecycle invariant: starting from any table whose current id
is in bounds, a push/pop sequence whose pops never outnumber pushes (at
the current depth) keeps the current id in bounds. -/
theorem exec_ops_current_lt (ops : List ScopeOp) :
    ∀ st : SymbolTable, good_ops st.current ops = true →
      st.current < st.scopes.length →
      (exec_ops st ops).current < (exec_ops st ops).scopes.length := by
  induction ops with
  | nil => intro st _ h; simpa [exec_ops] using h
  | cons op rest ih =>
    intro st hg h
    cases op with
    | push =>
      simp only [exec_ops]
      apply ih
      · simpa [SymbolTable.push_scope, good_ops] using hg
      · simp [SymbolTable.push_scope]
        omega
    | pop =>
      simp only [exec_ops]
      simp only [good_ops, Bool.and_eq_true, bne_iff_ne, ne_eq] at hg
      apply ih
      · simpa [SymbolTable.pop_scope] using hg.2
      · simp [SymbolTable.pop_scope]
        omega

/-! ## Claim theorems -/

/-- The loop of `Lexer::run` on the code `"="` makes no progress: from
any along-the-way state (any `index`, `line`, accumulated tokens and
diagnostics, `position` 0), any amount of fuel runs out. -/
theorem run_aux_stuck_on_eq (fuel : Nat) :
    ∀ (i l : Nat) (toks : List Token) (errs : List Diagnostic),
      Lexer.run_aux fuel { code := ['='], position := 0, index := i, line := l } toks errs =
        .fuelOut := by
  induction fuel with
  | zero => intro i l toks errs; rfl
  | succ fuel ih =>
    intro i l toks errs
    have hstep : Lexer.get_next_token { code := ['='], position := 0, index := i, line := l } =
        .ok ⟨.EqEq, ⟨i + 1, i + 3, l⟩⟩ { code := ['='], position := 0, index := i + 2, line := l } := by
      simp +decide [Lexer.get_next_token, skip_wc, is_whitespace, Lexer.collect_id,
        Lexer.collect_number, collect_number_loop, Lexer.punct_dispatch, Lexer.pair_tok,
        Lexer.advance_index, Lexer.advance, List.find?]
    simp only [Lexer.run_aux, hstep]
    exact ih (i + 2) l (toks ++ [⟨.EqEq, ⟨i + 1, i + 3, l⟩⟩]) errs

/-- **C1** (code bug, refuting theorem).  The claim states that
`Lexer::run` terminates on every input.  It does not: on the input
`"="` (any punctuation input behaves alike) the `advance!` helper bumps
only `index` while `current_char` reads `position`, so `get_next_token`
returns an `EqEq` token WITHOUT consuming the character and the loop of
`run` rescans it forever: no amount of fuel completes the run — it
never reaches an `Ok`, an `Err`, or even a panic. -/
theorem c1_run_never_terminates_on_eq :
    ∀ fuel : Nat, Lexer.run fuel (Lexer.new "=") = .fuelOut :=
  fun fuel => run_aux_stuck_on_eq fuel 0 1 [] []

/-- **C2** (code bug, refuting theorem).  The claim states that the
punctuation table uses one character of lookahead: `"="` should scan to
`Eq` and `"->"` to `TArrow`, each consuming its own characters.  In the
code, `advance!` bumps only `index` while the lookahead test reads
`current_char()` at the unmoved `position`, so it compares the operator
against ITSELF: scanning `"="` yields `EqEq` and scanning `"->"` yields
`Minus`, and neither consumes anything (`position` stays 0). -/
theorem c2_lookahead_compares_same_char :
    (Lexer.new "=").get_next_token =
      .ok ⟨.EqEq, ⟨1, 3, 1⟩⟩ { code := ['='], position := 0, index := 2, line := 1 } ∧
    (Lexer.new "->").get_next_token =
      .ok ⟨.Minus, ⟨1, 2, 1⟩⟩ { code := ['-', '>'], position := 0, index := 1, line := 1 } := by
  constructor <;>
    simp +decide [Lexer.new, Lexer.get_next_token, skip_wc, is_whitespace, Lexer.collect_id,
      Lexer.collect_number, collect_number_loop, Lexer.punct_dispatch, Lexer.pair_tok,
      Lexer.advance_index, Lexer.advance, List.find?]

/-- **C9** (code bug, refuting theorem).  The claim states that every
malformed character literal — including `'` directly at end of file —
is diagnosed as "unterminated character literal" without crashing.  In
`collect_char` the source reads `current_char()` (an `unwrap`) BEFORE
its end-of-file test, so the input `"'"` panics; the diagnosed path is
reached only when at least one character follows the opening quote
(second conjunct: `"'a"` is diagnosed and the scanner advances past the
offending character). -/
theorem c9_char_literal_eof_panics :
    (Lexer.new "'").get_next_token = .panic ∧
    (Lexer.new "'a").get_next_token =
      .err { message := "unterminated character literal", code := "E0002" }
        { code := ['\'', 'a'], position := 2, index := 2, line := 1 } := by
  constructor <;>
    simp +decide [Lexer.new, Lexer.get_next_token, skip_wc, is_whitespace, Lexer.collect_id,
      Lexer.collect_number, collect_number_loop, Lexer.punct_dispatch, Lexer.collect_char,
      Lexer.advance]

/-- **C7** (confirmed).  On the token sequence of `1 + 2 + 3 ;`,
`parse_expression` folds exactly one `+`: it returns `Add(1, 2)` and
stops at token index 3 — the second `+`, left unconsumed (third
conjunct) — so a chain of three same-precedence operators is not fully
consumed. -/
theorem c7_term_level_folds_at_most_once :
    parse_expression 32
      ⟨[tok (.Number 1), tok .Plus, tok (.Number 2), tok .Plus, tok (.Number 3), tok .Semi, tok .EOF], 0⟩ =
      some (.BinaryOp (.Literal (.Number 1)) .Add (.Literal (.Number 2)),
        ⟨[tok (.Number 1), tok .Plus, tok (.Number 2), tok .Plus, tok (.Number 3), tok .Semi, tok .EOF], 3⟩) ∧
    ([tok (.Number 1), tok .Plus, tok (.Number 2), tok .Plus, tok (.Number 3), tok .Semi, tok .EOF].get? 3).map
        Token.kind = some .Plus := by
  exact ⟨rfl, rfl⟩

/-- **C8** (confirmed).  On the token sequence of `1 + 2 * 3`, the
parse result's root operator is `Add`, its left operand the literal 1
and its right operand `Mul(2, 3)`: multiplication binds tighter than
addition. -/
theorem c8_mul_binds_tighter_than_add :
    parse_expression 32
      ⟨[tok (.Number 1), tok .Plus, tok (.Number 2), tok .Star, tok (.Number 3), tok .EOF], 0⟩ =
      some (.BinaryOp (.Literal (.Number 1)) .Add
              (.BinaryOp (.Literal (.Number 2)) .Mul (.Literal (.Number 3))),
        ⟨[tok (.Number 1), tok .Plus, tok (.Number 2), tok .Star, tok (.Number 3), tok .EOF], 5⟩) := by
  exact rfl

/-- **C3** (counterexample).  The claim states that a popped scope is
never the current scope again, "in particular ... for a sequence that
pushes, pops, and then pushes again".  Exactly that sequence refutes
it: after `push; pop; push` the current id equals the id that was
current before the pop (the popped scope, id 1, whose bindings become
reachable again), and not the id of the scope the final push created
(the vector holds 3 scopes and the fresh one sits unreachable at
id 2). -/
theorem c3_push_pop_push_revisits_popped_scope :
    (exec_ops SymbolTable.new [.push, .pop, .push]).current =
      (exec_ops SymbolTable.new [.push]).current ∧
    (exec_ops SymbolTable.new [.push, .pop]).current ≠
      (exec_ops SymbolTable.new [.push]).current ∧
    (exec_ops SymbolTable.new [.push, .pop, .push]).current = 1 ∧
    (exec_ops SymbolTable.new [.push, .pop, .push]).scopes.length = 3 := by
  decide

/-- **C3** (amended).  What does hold: for every push/pop sequence in
which pops never outnumber pushes, the current-scope id stays a valid
index into the scope vector; but a popped scope CAN become current
again — after `push; pop; push` the current scope is the node popped
earlier (conjuncts two and three re-establish the counterexample), so
the "never revisited" part of the claim must be dropped. -/
theorem c3_amended_valid_index_but_revisits :
    (∀ ops : List ScopeOp, good_ops 0 ops = true →
      (exec_ops SymbolTable.new ops).current <
        (exec_ops SymbolTable.new ops).scopes.length) ∧
    (exec_ops SymbolTable.new [.push, .pop, .push]).current =
      (exec_ops SymbolTable.new [.push]).current ∧
    (exec_ops SymbolTable.new [.push, .pop]).current ≠
      (exec_ops SymbolTable.new [.push]).current := by
  refine ⟨fun ops hg => ?_, by decide, by decide⟩
  exact exec_ops_current_lt ops SymbolTable.new hg (by decide)

/-- Witness for the amended C3 theorem at the concrete sequence
`push; pop; push` (its side condition holds by computation). -/
theorem c3_amended_witness :
    (exec_ops SymbolTable.new [.push, .pop, .push]).current <
      (exec_ops SymbolTable.new [.push, .pop, .push]).scopes.length :=
  c3_amended_valid_index_but_revisits.1 [.push, .pop, .push] (by decide)

/-- **C4** (confirmed).  First conjunct: for every table state and
name, the callee lookup performed by `gen_function_call` (current
scope via `get_function`, then on a miss exactly the current scope's
parent) coincides with `spec_function_lookup`, the two-level lookup
the specification describes.  The remaining conjuncts pin the
asymmetry on concrete tables: a variable bound only in the enclosing
scope is NOT found by `get_variable` (yet is still recorded in the
parent scope); a function bound one level up IS found by the call-site
lookup; a function bound two levels up is NOT — no walk to the root. -/
theorem c4_variable_current_only_function_one_level :
    (∀ (st : SymbolTable) (name : Str),
      lookup_function_for_call st name = spec_function_lookup st name) ∧
    (SymbolTable.new.insert_variable "x" ⟨true, .Number, 0⟩).push_scope.get_variable "x" = none ∧
    ((SymbolTable.new.insert_variable "x" ⟨true, .Number, 0⟩).push_scope.current_scope_parent?).map
      (fun sc => alist_get sc.vars "x") = some (some ⟨true, .Number, 0⟩) ∧
    lookup_function_for_call ((SymbolTable.new.insert_function "f" ⟨[], .Void, 0⟩).push_scope) "f" =
      some ⟨[], .Void, 0⟩ ∧
    lookup_function_for_call
      ((SymbolTable.new.insert_function "f" ⟨[], .Void, 0⟩).push_scope.push_scope) "f" = none := by
  refine ⟨fun st name => ?_, by decide, by decide, by decide, by decide⟩
  simp only [lookup_function_for_call, spec_function_lookup, SymbolTable.get_function,
    SymbolTable.current_scope?, SymbolTable.current_scope_parent?]
  rcases h : st.scopes.get? st.current with _ | sc
  · rfl
  · simp only [h]
    rcases hf : alist_get sc.functions name with _ | f <;> simp only [hf]
    · rcases hp : sc.parent with _ | pid <;> simp only [hp]

/-- `updateAt` preserves length. -/
theorem updateAt_length {α : Type} (l : List α) (i : Nat) (f : α → α) :
    (updateAt l i f).length = l.length := by
  induction l generalizing i with
  | nil => rfl
  | cons a t ih => cases i <;> simp [updateAt, ih]

/-- `updateAt` pointwise: position `i` is mapped, others unchanged. -/
theorem updateAt_get? {α : Type} (l : List α) (i j : Nat) (f : α → α) :
    (updateAt l i f).get? j = if i = j then (l.get? j).map f else l.get? j := by
  induction l generalizing i j with
  | nil => simp [updateAt]
  | cons a t ih =>
    cases i with
    | zero => cases j <;> simp [updateAt]
    | succ i' =>
      cases j with
      | zero => simp [updateAt]
      | succ j' => simpa [updateAt, Nat.succ_inj] using ih i' j'

/-- `emit` never touches the symbol table. -/
theorem emit_symtab {st st' : CGState} {i : Instr} (h : emit st i = some st') :
    st'.symbol_table = st.symbol_table := by
  unfold emit at h
  rcases hb : st.builder with _ | idx <;> simp [hb] at h
  by_cases hlt : idx < st.functions.length <;> simp [hlt] at h
  subst h; rfl

/-- The parameter prologue may only insert variables into the current
scope: the current id, the scope count, and every scope's FUNCTION map
are untouched. -/
theorem gen_params_symtab (args : List Arg) :
    ∀ st stp : CGState, gen_params st args = some stp →
      stp.symbol_table.current = st.symbol_table.current ∧
      stp.symbol_table.scopes.length = st.symbol_table.scopes.length ∧
      ∀ j, (stp.symbol_table.scopes.get? j).map (·.functions) =
        (st.symbol_table.scopes.get? j).map (·.functions) := by
  induction args with
  | nil =>
    intro st stp h
    simp only [gen_params, Option.some.injEq] at h
    subst h
    exact ⟨rfl, rfl, fun _ => rfl⟩
  | cons a rest ih =>
    intro st stp h
    simp only [gen_params, fresh] at h
    split at h
    · exact absurd h (by simp)
    · rename_i st3 h1
      split at h
      · exact absurd h (by simp)
      · rename_i st4 h2
        have e1 := emit_symtab h1
        have e2 := emit_symtab h2
        obtain ⟨hc, hl, hf⟩ := ih _ _ h
        refine ⟨?_, ?_, ?_⟩
        · rw [hc]; simp [SymbolTable.insert_variable, e2, e1]
        · rw [hl]; simp [SymbolTable.insert_variable, updateAt_length, e2, e1]
        · intro j
          rw [hf j]
          simp only [SymbolTable.insert_variable, e2, e1]
          rw [updateAt_get?]
          split
          · cases st.symbol_table.scopes.get? j <;> rfl
          · rfl

/-- **C5** (counterexample).  The claim states that `gen_function_def`
inserts the function's descriptor into the scope enclosing the body's
scope (current before the push).  Lowering `function f() {}` from a
fresh session refutes it: the definition succeeds, yet afterwards the
enclosing (global, id 0) scope's function map is still empty — the
descriptor sits in the body scope (id 1), pushed BEFORE the
`insert_function` call. -/
theorem c5_descriptor_not_in_enclosing_scope :
    (gen_function_def CGState.init (.mk ⟨"f", [], .Void⟩ (.Block []))).bind
      (fun st => (st.symbol_table.scopes.get? 0).map (·.functions)) = some [] ∧
    (gen_function_def CGState.init (.mk ⟨"f", [], .Void⟩ (.Block []))).bind
      (fun st => (st.symbol_table.scopes.get? 1).map (·.functions)) =
      some [("f", ⟨[], .Void, 0⟩)] := by
  constructor <;>
    simp +decide [gen_function_def, gen_function_def_core, gen_function_def_pre, gen_function_body,
      gen_stmts, gen_params, gen_prototype, fresh, emit, updateAt, verify_function,
      mangle_function_name, CGState.init, SymbolTable.new, SymbolTable.push_scope,
      SymbolTable.pop_scope, SymbolTable.insert_function, Scope.new, Func.prototype, Func.body,
      Instr.isTerm]

/-- **C5** (amended).  What does hold, for every session state (with a
valid current-scope id) and every function: in the state in which the
body is lowered (the result of `gen_function_def_pre`, which ends with
the `insert_function` call, so the insertion precedes every body
statement), the descriptor is retrievable via `get_function` — i.e. it
was inserted into the CURRENT scope at that moment, the body's scope
pushed at the start of `gen_function_def` — while the function map of
the enclosing scope (the one current before the push) is unchanged. -/
theorem c5_descriptor_in_body_scope_before_body (st : CGState) (f : Func) (stp : CGState)
    (hcur : st.symbol_table.current < st.symbol_table.scopes.length)
    (hpre : gen_function_def_pre st f = some stp) :
    stp.symbol_table.get_function
        (mangle_function_name f.prototype.name (f.prototype.args.map (·.typee))) =
      some ⟨f.prototype.args.map (·.typee), f.prototype.return_type, st.next_val⟩ ∧
    (stp.symbol_table.scopes.get? st.symbol_table.current).map (·.functions) =
      (st.symbol_table.scopes.get? st.symbol_table.current).map (·.functions) := by
  simp only [gen_function_def_pre, gen_prototype, fresh] at hpre
  split at hpre
  · exact absurd hpre (by simp)
  · rename_i stq hq
    simp only [Option.some.injEq] at hpre
    subst hpre
    obtain ⟨hc, hl, hf⟩ := gen_params_symtab _ _ _ hq
    have hc2 : stq.symbol_table.current = st.symbol_table.current + 1 := by
      rw [hc]; rfl
    have hl2 : stq.symbol_table.scopes.length = st.symbol_table.scopes.length + 1 := by
      rw [hl]; simp [SymbolTable.push_scope]
    constructor
    · simp only [SymbolTable.get_function, SymbolTable.current_scope?,
        SymbolTable.insert_function, hc2]
      rw [updateAt_get?]
      simp only [if_pos rfl]
      rcases hsc : stq.symbol_table.scopes.get? (st.symbol_table.current + 1) with _ | sc
      · rw [List.get?_eq_none] at hsc
        omega
      · simp [alist_get]
    · simp only [SymbolTable.insert_function]
      rw [updateAt_get?, if_neg (by omega)]
      have := hf st.symbol_table.current
      rw [this]
      simp only [SymbolTable.push_scope]
      rw [List.get?_append hcur]

/-- Witness for the amended C5 theorem: the concrete lowering of
`function f() {}` from a fresh session. -/
theorem c5_descriptor_in_body_scope_witness :
    ((gen_function_def_pre CGState.init (.mk ⟨"f", [], .Void⟩ (.Block []))).get
        (by simp [gen_function_def_pre, gen_prototype, fresh, gen_params])).symbol_table.get_function
        "f" = some ⟨[], .Void, 0⟩ := by
  have h := c5_descriptor_in_body_scope_before_body CGState.init
    (.mk ⟨"f", [], .Void⟩ (.Block []))
    ((gen_function_def_pre CGState.init (.mk ⟨"f", [], .Void⟩ (.Block []))).get
      (by simp [gen_function_def_pre, gen_prototype, fresh, gen_params]))
    (by decide)
    (by simp [gen_function_def_pre, gen_prototype, fresh, gen_params])
  exact h.1

/-- `get?` at index zero is the head. -/
theorem get?_zero_eq_head? {α : Type} (l : List α) : l.get? 0 = l.head? := by
  cases l <;> rfl

/-- `get?` at the junction of an append reads the second list's head. -/
theorem get?_at_append {α : Type} (l₁ l₂ : List α) :
    (l₁ ++ l₂).get? l₁.length = l₂.head? := by
  rw [List.get?_append_right (Nat.le_refl _)]
  simp only [Nat.sub_self]
  exact get?_zero_eq_head? _

/-- Run of `collect_number_loop` over a digit block `ds` at position
`pre.length`, when what follows starts with neither a digit nor a dot:
the digits are appended to the accumulator, float mode stays off, and
`position`/`index` move by exactly `ds.length`. -/
theorem collect_number_loop_digits (ds : List Ch) :
    ∀ (pre rest : List Ch) (st : Lexer) (acc : List Ch),
      st.code = pre ++ ds ++ rest →
      st.position = pre.length →
      ds.all Char.isDigit = true →
      (∀ c ∈ rest.head?, c.isDigit = false ∧ c ≠ '.') →
      collect_number_loop st acc false =
        (acc ++ ds, false,
          { st with position := st.position + ds.length, index := st.index + ds.length }) := by
  induction ds with
  | nil =>
    intro pre rest st acc hcode hpos _ hrest
    have hhd : st.code.get? st.position = rest.head? := by
      rw [hcode, hpos]
      simp only [List.append_nil, List.nil_append]
      exact get?_at_append pre rest
    rw [collect_number_loop]
    split
    · cases st
      simp
    · rename_i c heq
      have hc : c.isDigit = false ∧ c ≠ '.' := by
        apply hrest
        have : rest.head? = some c := hhd.symm.trans heq
        simp [this]
      cases st
      simp [hc.1]
  | cons d ds' ih =>
    intro pre rest st acc hcode hpos hdig hrest
    have hd : d.isDigit = true := by
      simp only [List.all_cons, Bool.and_eq_true] at hdig
      exact hdig.1
    have hds' : ds'.all Char.isDigit = true := by
      simp only [List.all_cons, Bool.and_eq_true] at hdig
      exact hdig.2
    have hhd : st.code.get? st.position = some d := by
      have hassoc : pre ++ (d :: ds') ++ rest = pre ++ (d :: (ds' ++ rest)) := by simp
      rw [hcode, hpos, hassoc, get?_at_append pre (d :: (ds' ++ rest))]
      rfl
    have hcode' : st.advance.code = (pre ++ [d]) ++ (ds' ++ rest) := by
      simp [Lexer.advance, hcode]
    have hpos' : st.advance.position = (pre ++ [d]).length := by
      simp [Lexer.advance, hpos]
    have hnext : st.advance.code.get? st.advance.position = (ds' ++ rest).head? := by
      rw [hcode', hpos']
      exact get?_at_append _ _
    have hcode'' : st.advance.code = (pre ++ [d]) ++ ds' ++ rest := by
      rw [hcode']
      simp
    have hrec := ih (pre ++ [d]) rest st.advance (acc ++ [d]) hcode'' hpos' hds' hrest
    rw [collect_number_loop]
    split
    · rename_i heq
      rw [heq] at hhd
      exact absurd hhd (by simp)
    · rename_i c heq
      obtain rfl : c = d := by
        have := heq.symm.trans hhd
        simpa using this
      simp only [hd, if_true]
      rcases hn : st.advance.code.get? st.advance.position with _ | e
      · simp only [hn]
        rw [hrec]
        cases st
        simp [Lexer.advance]
        omega
      · simp only [hn]
        have he : (ds' ++ rest).head? = some e := hnext.symm.trans hn
        have hne : ¬(e = '.') := by
          rcases ds' with _ | ⟨e', t⟩
          · simp only [List.nil_append] at he
            exact (hrest e (by simp [he])).2
          · simp only [List.cons_append, List.head?_cons, Option.some.injEq] at he
            have h1 : e'.isDigit = true := by
              simp only [List.all_cons, Bool.and_eq_true] at hds'
              exact hds'.1
            intro hcontra
            rw [he, hcontra] at h1
            exact absurd h1 (by decide)
        simp only [if_neg hne]
        rw [hrec]
        cases st
        simp [Lexer.advance]
        omega

/-- **C10** (confirmed).  First conjunct: whenever the scanner stands
at the start of a non-empty maximal digit run (what follows is neither
a digit nor a dot) whose decimal value fits in an unsigned 64-bit
integer, `collect_number` returns a `Number` token carrying exactly
that value and consumes exactly the run.  Second conjunct: on the
all-digit input of twenty-one nines — whose value exceeds `2^64 - 1` —
`collect_number` panics in `parse().unwrap()` (`none`), returning
neither a token nor a diagnostic. -/
theorem c10_number_fits_or_parse_panics :
    (∀ (ds pre rest : List Ch) (st : Lexer),
      st.code = pre ++ ds ++ rest →
      st.position = pre.length →
      ds ≠ [] →
      ds.all Char.isDigit = true →
      (∀ c ∈ rest.head?, c.isDigit = false ∧ c ≠ '.') →
      natOfDigits ds < 2 ^ 64 →
      st.collect_number =
        some (some (⟨.Number (natOfDigits ds), ⟨st.index, st.index + ds.length, st.line⟩⟩,
          { st with position := st.position + ds.length, index := st.index + ds.length }))) ∧
    (Lexer.new "999999999999999999999").collect_number = none := by
  constructor
  · intro ds pre rest st hcode hpos hne hdg hrest hlt
    rw [Lexer.collect_number]
    rw [collect_number_loop_digits ds pre rest st [] hcode hpos hdg hrest]
    have h1 : ds.isEmpty = false := by
      cases ds
      · exact absurd rfl hne
      · rfl
    have h2 : parse_u64 ds = some (natOfDigits ds) := by
      simp only [parse_u64, h1, Bool.false_eq_true, if_false, hdg, if_true, hlt]
    simp only [List.nil_append, h1, Bool.false_eq_true, if_false, h2]
  · simp +decide [Lexer.new, Lexer.collect_number, collect_number_loop, Lexer.advance,
      parse_u64, natOfDigits]

/-- Witness for C10 at the concrete input `123`: a `Number 123` token
consuming the three digits. -/
theorem c10_number_fits_witness :
    Lexer.collect_number { code := ['1', '2', '3'], position := 0, index := 0, line := 1 } =
      some (some (⟨.Number 123, ⟨0, 3, 1⟩⟩,
        { code := ['1', '2', '3'], position := 3, index := 3, line := 1 })) := by
  have h := c10_number_fits_or_parse_panics.1 ['1', '2', '3'] [] []
    { code := ['1', '2', '3'], position := 0, index := 0, line := 1 }
    (by simp) rfl (by simp) (by decide) (by simp) (by decide)
  simpa [natOfDigits] using h

/-- `ext_tail` is reflexive. -/
theorem ext_tail_refl (r : Bool) (st : CGState) : ext_tail r st st := by
  refine ⟨rfl, fun i f h => ⟨[], ?_, fun _ => rfl⟩⟩
  simpa using h

/-- `ext_tail` is transitive. -/
theorem ext_tail_trans {r : Bool} {a b c : CGState}
    (h1 : ext_tail r a b) (h2 : ext_tail r b c) : ext_tail r a c := by
  obtain ⟨hb1, hf1⟩ := h1
  obtain ⟨hb2, hf2⟩ := h2
  refine ⟨hb2.trans hb1, fun i f h => ?_⟩
  obtain ⟨t1, hg1, ha1⟩ := hf1 i f h
  obtain ⟨t2, hg2, ha2⟩ := hf2 i _ hg1
  refine ⟨t1 ++ t2, ?_, fun hr => ?_⟩
  · rw [hg2]
    simp
  · simp [List.all_append, ha1 hr, ha2 hr]

/-- A step that changes neither the functions nor the builder is an
`ext_tail`. -/
theorem ext_tail_of_same (r : Bool) {st st' : CGState}
    (hf : st'.functions = st.functions) (hb : st'.builder = st.builder) :
    ext_tail r st st' := by
  refine ⟨hb, fun i f h => ⟨[], ?_, fun _ => rfl⟩⟩
  rw [hf]
  simpa using h

/-- Anatomy of a successful `emit`. -/
theorem emit_parts {st st' : CGState} {ins : Instr} (h : emit st ins = some st') :
    ∃ idx, st.builder = some idx ∧ idx < st.functions.length ∧
      st'.builder = st.builder ∧ st'.symbol_table = st.symbol_table ∧
      st'.next_val = st.next_val ∧
      st'.functions = updateAt st.functions idx (fun f => { f with instrs := f.instrs ++ [ins] }) := by
  unfold emit at h
  rcases hb : st.builder with _ | idx <;> rw [hb] at h <;> dsimp only at h
  · exact absurd h (by simp)
  · by_cases hlt : idx < st.functions.length
    · rw [if_pos hlt] at h
      simp only [Option.some.injEq] at h
      subst h
      exact ⟨idx, rfl, hlt, rfl, rfl, rfl, rfl⟩
    · rw [if_neg hlt] at h
      exact absurd h (by simp)

/-- A successful `emit` of a non-terminator (or of anything, when
returns are allowed) is an `ext_tail`. -/
theorem emit_ext {r : Bool} {st st' : CGState} {ins : Instr}
    (h : emit st ins = some st') (hr : r = false → ins.isTerm = false) :
    ext_tail r st st' := by
  obtain ⟨idx, _, _, hb', _, _, hfs⟩ := emit_parts h
  refine ⟨hb', fun i f hg => ?_⟩
  by_cases hij : idx = i
  · subst hij
    refine ⟨[ins], ?_, fun hrf => ?_⟩
    · rw [hfs, updateAt_get?, if_pos rfl, hg]
      rfl
    · simp [hr hrf]
  · refine ⟨[], ?_, fun _ => rfl⟩
    rw [hfs, updateAt_get?, if_neg hij]
    simpa using hg

/-- Declaring a prototype only appends a new function: existing
functions and the builder are untouched. -/
theorem gen_prototype_ext (r : Bool) (st : CGState) (p : Prototype) :
    ext_tail r st (gen_prototype st p).2 := by
  refine ⟨rfl, fun i f hg => ⟨[], ?_, fun _ => rfl⟩⟩
  have hi : i < st.functions.length := (List.get?_eq_some.mp hg).1
  simp only [gen_prototype, fresh]
  rw [List.get?_append hi]
  simpa using hg

/-- Lowering an extern block is an `ext_tail`. -/
theorem gen_externs_ext (r : Bool) (ps : List Prototype) :
    ∀ st : CGState, ext_tail r st (gen_externs st ps) := by
  induction ps with
  | nil => intro st; exact ext_tail_refl r st
  | cons p rest ih =>
    intro st
    exact ext_tail_trans (gen_prototype_ext r st p) (ih _)

/-- Bumping the fresh-value counter is an `ext_tail`. -/
theorem ext_tail_next_val (r : Bool) (st : CGState) (n : Nat) :
    ext_tail r st { st with next_val := n } :=
  ext_tail_of_same r rfl rfl

mutual

/-- Lowering an expression never moves the builder and only appends
non-terminator instructions to existing functions. -/
theorem gen_expression_ext (r : Bool) (e : Expression) :
    ∀ (st : CGState) (v : FluidValueRef) (st' : CGState),
      gen_expression st e = some (v, st') → ext_tail r st st' := by
  cases e with
  | VarRef name =>
    intro st v st' h
    simp only [gen_expression, fresh] at h
    split at h
    · exact absurd h (by simp)
    · split at h
      · split at h
        · exact absurd h (by simp)
        · rename_i st2 hemit
          simp only [Option.some.injEq, Prod.mk.injEq] at h
          obtain ⟨-, rfl⟩ := h
          exact ext_tail_trans (ext_tail_next_val r st _) (emit_ext hemit (fun _ => rfl))
      · exact absurd h (by simp)
  | VarAssign name value =>
    intro st v st' h
    exact absurd h (by simp [gen_expression])
  | Paren e =>
    intro st v st' h
    exact absurd h (by simp [gen_expression])
  | Literal lit =>
    intro st v st' h
    cases lit with
    | Bool b =>
      simp only [gen_expression, fresh, Option.some.injEq, Prod.mk.injEq] at h
      obtain ⟨-, rfl⟩ := h
      exact ext_tail_next_val r st _
    | Number n =>
      simp only [gen_expression, fresh, Option.some.injEq, Prod.mk.injEq] at h
      obtain ⟨-, rfl⟩ := h
      exact ext_tail_next_val r st _
    | Float f => exact absurd h (by simp [gen_expression])
    | String s => exact absurd h (by simp [gen_expression])
    | Char c => exact absurd h (by simp [gen_expression])
    | Null => exact absurd h (by simp [gen_expression])
  | FunctionCall name args =>
    intro st v st' h
    simp only [gen_expression, fresh] at h
    split at h
    · exact absurd h (by simp)
    · rename_i cargs st1 hargs
      split at h
      · exact absurd h (by simp)
      · rename_i func hfunc
        split at h
        · exact absurd h (by simp)
        · rename_i st3 hemit
          simp only [Option.some.injEq, Prod.mk.injEq] at h
          obtain ⟨-, rfl⟩ := h
          exact ext_tail_trans (gen_args_ext r args st [] cargs st1 hargs)
            (ext_tail_trans (ext_tail_next_val r st1 _) (emit_ext hemit (fun _ => rfl)))
  | BinaryOp lhs op rhs =>
    intro st v st' h
    simp only [gen_expression, fresh] at h
    split at h
    · exact absurd h (by simp)
    · rename_i l st1 hl
      split at h
      · exact absurd h (by simp)
      · rename_i rv st2 hr2
        split at h
        · split at h
          · exact absurd h (by simp)
          · rename_i st4 hemit
            simp only [Option.some.injEq, Prod.mk.injEq] at h
            obtain ⟨-, rfl⟩ := h
            exact ext_tail_trans (gen_expression_ext r lhs st l st1 hl)
              (ext_tail_trans (gen_expression_ext r rhs st1 rv st2 hr2)
                (ext_tail_trans (ext_tail_next_val r st2 _)
                  (emit_ext hemit (fun _ => by split <;> rfl))))
        · split at h
          · exact absurd h (by simp)
          · rename_i st4 hemit
            simp only [Option.some.injEq, Prod.mk.injEq] at h
            obtain ⟨-, rfl⟩ := h
            exact ext_tail_trans (gen_expression_ext r lhs st l st1 hl)
              (ext_tail_trans (gen_expression_ext r rhs st1 rv st2 hr2)
                (ext_tail_trans (ext_tail_next_val r st2 _)
                  (emit_ext hemit (fun _ => by split <;> rfl))))
        · split at h
          · exact absurd h (by simp)
          · rename_i st4 hemit
            simp only [Option.some.injEq, Prod.mk.injEq] at h
            obtain ⟨-, rfl⟩ := h
            exact ext_tail_trans (gen_expression_ext r lhs st l st1 hl)
              (ext_tail_trans (gen_expression_ext r rhs st1 rv st2 hr2)
                (ext_tail_trans (ext_tail_next_val r st2 _)
                  (emit_ext hemit (fun _ => by split <;> rfl))))
        · exact absurd h (by simp)
  | Unary op rhs =>
    intro st v st' h
    cases op with
    | Not => exact absurd h (by simp [gen_expression])
    | Neg =>
      simp only [gen_expression, fresh] at h
      split at h
      · exact absurd h (by simp)
      · rename_i rv st1 hr2
        split at h
        · exact absurd h (by simp)
        · rename_i st3 hemit
          simp only [Option.some.injEq, Prod.mk.injEq] at h
          obtain ⟨-, rfl⟩ := h
          exact ext_tail_trans (gen_expression_ext r rhs st rv st1 hr2)
            (ext_tail_trans (ext_tail_next_val r st1 _) (emit_ext hemit (fun _ => rfl)))

/-- Lowering an argument list is an `ext_tail`. -/
theorem gen_args_ext (r : Bool) (l : List Expression) :
    ∀ (st : CGState) (acc res : List FluidValueRef) (st' : CGState),
      gen_args st l acc = some (res, st') → ext_tail r st st' := by
  cases l with
  | nil =>
    intro st acc res st' h
    simp only [gen_args, Option.some.injEq, Prod.mk.injEq] at h
    obtain ⟨-, rfl⟩ := h
    exact ext_tail_refl r st
  | cons e rest =>
    intro st acc res st' h
    simp only [gen_args] at h
    split at h
    · exact absurd h (by simp)
    · rename_i v1 st1 he
      exact ext_tail_trans (gen_expression_ext r e st v1 st1 he)
        (gen_args_ext r rest st1 (acc ++ [v1]) res st' h)

end

/-- Swapping the symbol table is an `ext_tail`. -/
theorem ext_tail_symtab (r : Bool) (st : CGState) (x : SymbolTable) :
    ext_tail r st { st with symbol_table := x } :=
  ext_tail_of_same r rfl rfl

/-- The parameter prologue is an `ext_tail`: it emits only allocas and
stores. -/
theorem gen_params_ext (r : Bool) (args : List Arg) :
    ∀ st st' : CGState, gen_params st args = some st' → ext_tail r st st' := by
  induction args with
  | nil =>
    intro st st' h
    simp only [gen_params, Option.some.injEq] at h
    subst h
    exact ext_tail_refl r st
  | cons a rest ih =>
    intro st st' h
    simp only [gen_params, fresh] at h
    split at h
    · exact absurd h (by simp)
    · rename_i st3 h3
      split at h
      · exact absurd h (by simp)
      · rename_i st4 h4
        exact ext_tail_trans (ext_tail_next_val r st _)
          (ext_tail_trans (emit_ext h3 (fun _ => rfl))
            (ext_tail_trans (emit_ext h4 (fun _ => rfl))
              (ext_tail_trans (ext_tail_symtab r st4 _) (ih _ _ h))))

mutual

/-- Lowering a statement that contains no nested function definition
keeps the builder position and only appends to existing functions;
when the statement also contains no return (required when `r` is
`false`), the appended instructions contain no terminator. -/
theorem gen_statement_ext (r : Bool) (s : Statement) :
    ∀ st st' : CGState, gen_statement st s = some st' →
      stmt_no_fn_decl s = true → (r = false → stmt_no_return s = true) →
      ext_tail r st st' := by
  cases s with
  | Expression e =>
    intro st st' h _ _
    simp only [gen_statement] at h
    split at h
    · exact absurd h (by simp)
    · rename_i v1 st1 he
      simp only [Option.some.injEq] at h
      subst h
      exact gen_expression_ext r e st v1 _ he
  | Return e =>
    intro st st' h _ hret
    simp only [gen_statement] at h
    split at h
    · exact absurd h (by simp)
    · rename_i v1 st1 he
      exact ext_tail_trans (gen_expression_ext r e st v1 st1 he)
        (emit_ext h (fun hrf => absurd (hret hrf) (by simp [stmt_no_return])))
  | Block b =>
    intro st st' h hnf hret
    simp only [gen_statement] at h
    split at h
    · exact absurd h (by simp)
    · rename_i st1 hb1
      simp only [Option.some.injEq] at h
      subst h
      refine ext_tail_trans (ext_tail_symtab r st _)
        (ext_tail_trans
          (gen_stmts_ext r b _ st1 hb1 (by simpa [stmt_no_fn_decl] using hnf)
            (fun hrf => by simpa [stmt_no_return] using hret hrf))
          (ext_tail_symtab r st1 _))
  | Declaration d =>
    intro st st' h hnf _
    simp only [gen_statement] at h
    exact gen_decl_ext r d st st' h (by simpa [stmt_no_fn_decl] using hnf)
  | If cond body elif =>
    intro st st' h _ _
    exact absurd h (by simp [gen_statement])
  | For =>
    intro st st' h _ _
    exact absurd h (by simp [gen_statement])

/-- Lowering a statement list under the same conditions. -/
theorem gen_stmts_ext (r : Bool) (l : List Statement) :
    ∀ st st' : CGState, gen_stmts st l = some st' →
      stmts_no_fn_decl l = true → (r = false → stmts_no_return l = true) →
      ext_tail r st st' := by
  cases l with
  | nil =>
    intro st st' h _ _
    simp only [gen_stmts, Option.some.injEq] at h
    subst h
    exact ext_tail_refl r st
  | cons s rest =>
    intro st st' h hnf hret
    simp only [gen_stmts] at h
    split at h
    · exact absurd h (by simp)
    · rename_i st1 h1
      have hnf' := hnf
      simp only [stmts_no_fn_decl, Bool.and_eq_true] at hnf'
      exact ext_tail_trans
        (gen_statement_ext r s st st1 h1 hnf'.1
          (fun hrf => by
            have := hret hrf
            simp only [stmts_no_return, Bool.and_eq_true] at this
            exact this.1))
        (gen_stmts_ext r rest st1 st' h hnf'.2
          (fun hrf => by
            have := hret hrf
            simp only [stmts_no_return, Bool.and_eq_true] at this
            exact this.2))

/-- Lowering a declaration that is not a function definition. -/
theorem gen_decl_ext (r : Bool) (d : Declaration) :
    ∀ st st' : CGState, gen_decl st d = some st' →
      decl_no_fn_decl d = true → ext_tail r st st' := by
  cases d with
  | Function f =>
    intro st st' _ hnf
    exact absurd hnf (by simp [decl_no_fn_decl])
  | VarDef n t val =>
    intro st st' h _
    simp only [gen_decl, gen_var_def, fresh] at h
    split at h
    · exact absurd h (by simp)
    · rename_i v1 st1 he
      split at h
      · exact absurd h (by simp)
      · rename_i st3 h3
        split at h
        · exact absurd h (by simp)
        · rename_i st4 h4
          simp only [Option.some.injEq] at h
          subst h
          exact ext_tail_trans (gen_expression_ext r val st v1 st1 he)
            (ext_tail_trans (ext_tail_next_val r st1 _)
              (ext_tail_trans (emit_ext h3 (fun _ => rfl))
                (ext_tail_trans (emit_ext h4 (fun _ => rfl)) (ext_tail_symtab r st4 _))))
  | Extern ps =>
    intro st st' h _
    simp only [gen_decl, Option.some.injEq] at h
    subst h
    exact gen_externs_ext r ps st

end

/-- A function whose instructions contain no terminator fails the
modelled verifier. -/
theorem verify_function_of_no_term (fn : FnIR)
    (h : fn.instrs.all (fun ins => !ins.isTerm) = true) :
    verify_function (some fn) = false := by
  rcases hl : fn.instrs.getLast? with _ | i
  · simp [verify_function, hl]
  · have hmem : i ∈ fn.instrs := List.mem_of_mem_getLast? (by simp [hl])
    have hni : i.isTerm = false := by simpa using (List.all_eq_true.mp h) i hmem
    simp [verify_function, hl, hni]

/-- Anatomy of a successful `gen_function_def_pre`: the builder ends up
positioned on the newly declared function (slot `st.functions.length`,
value handle `st.next_val`), whose instructions so far are the
parameter prologue — allocas and stores, no terminator. -/
theorem gen_function_def_pre_parts {st : CGState} {f : Func} {st4 : CGState}
    (h : gen_function_def_pre st f = some st4) :
    st4.builder = some st.functions.length ∧
    ∃ t0, st4.functions.get? st.functions.length =
        some ⟨mangle_function_name f.prototype.name (f.prototype.args.map (·.typee)),
          st.next_val, [] ++ t0⟩ ∧
      t0.all (fun ins => !ins.isTerm) = true := by
  simp only [gen_function_def_pre, gen_prototype, fresh] at h
  split at h
  · exact absurd h (by simp)
  · rename_i stq hq
    simp only [Option.some.injEq] at h
    have hext := gen_params_ext false f.prototype.args _ stq hq
    obtain ⟨hb1, hf1⟩ := hext
    have hidx0 : (st.functions ++
        [FnIR.mk (mangle_function_name f.prototype.name (f.prototype.args.map (·.typee)))
          st.next_val []]).get? st.functions.length =
        some (FnIR.mk (mangle_function_name f.prototype.name (f.prototype.args.map (·.typee)))
          st.next_val []) := by
      rw [get?_at_append]
      rfl
    have hres := hf1 st.functions.length
      (FnIR.mk (mangle_function_name f.prototype.name (f.prototype.args.map (·.typee)))
        st.next_val []) hidx0
    obtain ⟨t0, hg0, ha0⟩ := hres
    constructor
    · rw [← h]
      exact hb1
    · refine ⟨t0, ?_, by simpa using ha0 rfl⟩
      rw [← h]
      exact hg0

/-- **C6** (confirmed).  For every session state, prototype and body
block free of nested function definitions, when the pre-verifier part
of `gen_function_def` succeeds: (first conjunct) if the declared
return type is `Void`, the generated function's instruction stream
ends with the implicit `ret void`; (second conjunct) if the declared
return type is not `Void` and the body contains no return statement,
no implicit return is appended — the generated function contains no
terminator at all — so the verifier deterministically rejects it and
`gen_function_def` panics (`none`). -/
theorem c6_implicit_return_exactly_for_void
    (st : CGState) (proto : Prototype) (stmts : List Statement) (st7 : CGState)
    (hnf : stmts_no_fn_decl stmts = true)
    (hcore : gen_function_def_core st (.mk proto (.Block stmts)) = some st7) :
    (proto.return_type = .Void →
      (st7.functions.get? st.functions.length).map (fun f => f.instrs.getLast?) =
        some (some .retVoid)) ∧
    (proto.return_type ≠ .Void → stmts_no_return stmts = true →
      verify_function (st7.functions.get? st.functions.length) = false ∧
      gen_function_def st (.mk proto (.Block stmts)) = none) := by
  have hcore0 := hcore
  simp only [gen_function_def_core] at hcore
  split at hcore
  · exact absurd hcore (by simp)
  · rename_i st4 hpre
    split at hcore
    · exact absurd hcore (by simp)
    · rename_i st5 hbody
      simp only [gen_function_body] at hbody
      obtain ⟨hb4, t0, hg4, ha0⟩ := gen_function_def_pre_parts hpre
      constructor
      · -- Void: the implicit ret void ends the stream
        intro hvoid
        rw [if_pos hvoid] at hcore
        obtain ⟨hb2, hf2⟩ :=
          gen_stmts_ext true stmts st4 st5 hbody hnf (fun hrf => absurd hrf (by simp))
        obtain ⟨t1, hg1, -⟩ := hf2 st.functions.length _ hg4
        have hbuilder : st5.builder = some st.functions.length := hb2.trans hb4
        obtain ⟨idx2, hbi, hlt2, hb3, -, -, hfs⟩ := emit_parts hcore
        have hbi' : st5.builder = some idx2 := hbi
        rw [hbuilder] at hbi'
        obtain rfl : idx2 = st.functions.length := by simpa using hbi'.symm
        have hfs' : st7.functions = updateAt st5.functions st.functions.length
            (fun f => { f with instrs := f.instrs ++ [.retVoid] }) := hfs
        rw [hfs', updateAt_get?, if_pos rfl, hg1]
        simp
      · -- non-Void: no terminator at all, verification fails, panic
        intro hnv hnr
        rw [if_neg hnv] at hcore
        simp only [Option.some.injEq] at hcore
        obtain ⟨hb2, hf2⟩ := gen_stmts_ext false stmts st4 st5 hbody hnf (fun _ => hnr)
        obtain ⟨t1, hg1, ha1⟩ := hf2 st.functions.length _ hg4
        have hget7 : st7.functions.get? st.functions.length =
            some ⟨mangle_function_name
                (Func.mk proto (Statement.Block stmts)).prototype.name
                ((Func.mk proto (Statement.Block stmts)).prototype.args.map (·.typee)),
              st.next_val, (([] ++ t0) ++ t1)⟩ := by
          rw [← hcore]
          exact hg1
        have hall : ((([] : List Instr) ++ t0) ++ t1).all (fun ins => !ins.isTerm) = true := by
          simp only [List.nil_append, List.all_append, Bool.and_eq_true]
          exact ⟨ha0, ha1 rfl⟩
        have hver : verify_function
            (st7.functions.get? st.functions.length) = false := by
          rw [hget7]
          exact verify_function_of_no_term _ hall
        refine ⟨hver, ?_⟩
        simp only [gen_function_def, hcore0, hver]
        rfl

/-- Witness for C6: lowering `function f() -> number { }` (empty body,
non-Void return type) from a fresh session fails verification and
panics. -/
theorem c6_implicit_return_witness :
    verify_function
      (((gen_function_def_core CGState.init (.mk ⟨"f", [], .Number⟩ (.Block []))).get
          (by simp [gen_function_def_core, gen_function_def_pre, gen_function_body, gen_stmts,
            gen_params, gen_prototype, fresh, Func.prototype, Func.body])).functions.get? 0) =
      false ∧
    gen_function_def CGState.init (.mk ⟨"f", [], .Number⟩ (.Block [])) = none :=
  (c6_implicit_return_exactly_for_void CGState.init ⟨"f", [], .Number⟩ []
      ((gen_function_def_core CGState.init (.mk ⟨"f", [], .Number⟩ (.Block []))).get
        (by simp [gen_function_def_core, gen_function_def_pre, gen_function_body, gen_stmts,
          gen_params, gen_prototype, fresh, Func.prototype, Func.body]))
      rfl (Option.some_get _).symm).2 (by decide) rfl
